import Mathlib

/-!
# Verification of the tibprice price cache and refresh-scheduling core

Shallow embedding of the Rust sources (`src/pricing.rs`, `src/shared_buffer.rs`,
`src/tibberapi.rs`) of the `tibprice` repository and proofs of the specified
properties.

Modelling conventions:
* `chrono::DateTime<Utc>` instants are `Int` (milliseconds since an arbitrary
  epoch); the order on `Int` mirrors the total order on instants.
* `f64` price magnitudes (`total`) are carried as `Int` values: no claim does
  arithmetic on prices, they are only stored and returned, so only an
  equality-comparable payload is needed.
* Functions that read the ambient clock (`Utc::now()`, `Local::now()`) receive
  the current instant / local date / local time-of-day as explicit parameters.
* `NaiveTime` time-of-day values are `Int` milliseconds in `[0, msPerDay)`.
* Fallible stages (network fetch, file save) become explicit `Except` / `Bool`
  parameters; concurrency is modelled by passing the cache state observed at
  the relevant lock acquisition points explicitly.
-/

/-- Milliseconds in 24 hours; `chrono::Duration::days(1)` is exactly this. -/
def msPerDay : Int := 86400000

/-- `PricePoint` from `tibberapi.rs`: a price `total` valid from instant
`starts_at` (UTC, modelled as `Int` milliseconds). -/
structure PricePoint where
  total : Int
  starts_at : Int
deriving DecidableEq, Repr

/-- `ActivePrice` from `pricing.rs`: optional price and optional start instant.
The Rust struct stores `starts_at` converted to the local time zone; the
conversion is a bijection on instants, so the instant itself is kept. -/
structure ActivePrice where
  price : Option Int
  starts_at : Option Int
deriving DecidableEq, Repr

/-- `ActivePrice::new` / `Default`: both fields `None`. -/
def ActivePrice.new : ActivePrice := ⟨none, none⟩

/-- `ActivePrice::new_from_price_point`. -/
def ActivePrice.new_from_price_point (p : PricePoint) : ActivePrice :=
  ⟨some p.total, some p.starts_at⟩

/-- `PricePoints::last().map(|p| p.starts_at)` = `latest_price_date` in
`pricing.rs`: the `starts_at` of the last point, if any. -/
def latest_price_date (ps : List PricePoint) : Option Int :=
  ps.getLast?.map PricePoint.starts_at

/-- The derived `Ord` on Rust `Option<T>`: `None` is less than `Some _`,
`Some a < Some b` iff `a < b`.  Used by `has_more_recent_prices`, whose body
is `other.latest_price_date() < self.latest_price_date()`. -/
def optLt : Option Int → Option Int → Bool
  | none, none => false
  | none, some _ => true
  | some _, none => false
  | some a, some b => decide (a < b)

/-- `PricePoints::has_more_recent_prices` from `pricing.rs`:
`other.latest_price_date() < self.latest_price_date()` under the `Option`
ordering. -/
def has_more_recent_prices (self other : List PricePoint) : Bool :=
  optLt (latest_price_date other) (latest_price_date self)

/-- `PricePoints::has_prices_for_date` from `pricing.rs`: some point strictly
before `date` and some point strictly after `date`. -/
def has_prices_for_date (ps : List PricePoint) (date : Int) : Bool :=
  (ps.any fun point => decide (point.starts_at < date)) &&
  (ps.any fun point => decide (date < point.starts_at))

/-- `PricePoints::has_today_prices`: coverage at the current UTC instant
(`Utc::now()` is the explicit `now_utc` parameter). -/
def has_today_prices (ps : List PricePoint) (now_utc : Int) : Bool :=
  has_prices_for_date ps now_utc

/-- `PricePoints::has_tomorrows_prices`: coverage at the instant 24 hours
ahead.  The Rust code forms `Local::now() + Duration::days(1)` and converts it
back to UTC, which denotes exactly the instant `now_utc + msPerDay`. -/
def has_tomorrows_prices (ps : List PricePoint) (now_utc : Int) : Bool :=
  has_prices_for_date ps (now_utc + msPerDay)

/-- `PricePoints::should_fetch_prices` from `pricing.rs`.  `update_time` and
`now_time` are local times-of-day (`NaiveTime`, milliseconds since local
midnight); `now_utc` is the current instant.  Mirrors the Rust control flow:
missing today's prices returns `true` at once; otherwise, when tomorrow's
prices are missing and the local time-of-day has reached `update_time`,
returns `true`; otherwise `false`. -/
def should_fetch_prices (ps : List PricePoint) (update_time now_time : Int)
    (now_utc : Int) : Bool :=
  if !(has_today_prices ps now_utc) then
    true
  else if !(has_tomorrows_prices ps now_utc) then
    if now_time ≥ update_time then true else false
  else
    false

/-- The pair scan of `PricePoints::get_active_price`: the Rust loop walks
indices `0 .. len-1` and returns the first point `p` with
`p.starts_at <= now < next.starts_at`; recursion over adjacent pairs visits
exactly the same pairs in the same order. -/
def active_scan (now : Int) : List PricePoint → ActivePrice
  | [] => ActivePrice.new
  | [_] => ActivePrice.new
  | p :: q :: rest =>
    if p.starts_at ≤ now ∧ now < q.starts_at then
      ActivePrice.new_from_price_point p
    else
      active_scan now (q :: rest)

/-- `PricePoints::get_active_price` from `pricing.rs` (`Utc::now()` is the
explicit `now` parameter).  Empty input short-circuits to the default, which
the scan also yields on `[]`. -/
def get_active_price (ps : List PricePoint) (now : Int) : ActivePrice :=
  if ps.isEmpty then ActivePrice.new else active_scan now ps

/-- `PricePoints::duration_to_new_price_list` from `pricing.rs`, returned
duration in milliseconds as `Int` (the Rust `num_milliseconds() as u64` cast
is exact whenever the value is non-negative, which is proved below).
The ambient local clock `Local::now()` is decomposed into the local calendar
day `d` and the local time-of-day `t ∈ [0, msPerDay)`, so
`now_local = d * msPerDay + t`, `date_today.and_time(update_time)` is
`d * msPerDay + update_time` and the same time on `date_tomorrow`
(the calendar day of `now_local + days(1)`, i.e. day `d + 1`) is
`(d + 1) * msPerDay + update_time`.  `now_utc` is the same instant on the UTC
clock, used by the coverage checks. -/
def duration_to_new_price_list (ps : List PricePoint) (update_time : Int)
    (d t : Int) (now_utc : Int) : Int :=
  if !(has_today_prices ps now_utc) then
    0
  else
    let now_local := d * msPerDay + t
    let today_update_local := d * msPerDay + update_time
    let tomorrow_update_local := (d + 1) * msPerDay + update_time
    if has_tomorrows_prices ps now_utc then
      tomorrow_update_local - now_local
    else if now_local > today_update_local then
      0
    else
      today_update_local - now_local

/-- Outcome of `SharedPricePoints::set_new_prices` (`shared_buffer.rs`): the
stored series after the call, whether `notify_all` ran on the condition
variable, and the returned boolean. -/
structure InstallResult where
  state : List PricePoint
  notified_all : Bool
  returned : Bool
deriving DecidableEq, Repr

/-- `SharedPricePoints::set_new_prices` from `shared_buffer.rs`: under the
lock, if `new_prices.has_more_recent_prices(&guard)` then the stored series is
replaced, all waiters are notified, and `true` is returned; otherwise nothing
changes and `false` is returned. -/
def set_new_prices (current new_prices : List PricePoint) : InstallResult :=
  if has_more_recent_prices new_prices current then
    ⟨new_prices, true, true⟩
  else
    ⟨current, false, false⟩

/-- `SharedPricePoints::wait_for_new_prices` from `shared_buffer.rs`.
`call_prices` is the stored series observed under the lock at entry;
`recheck_prices` is the stored series observed when the lock is re-acquired
after `wait_timeout`; `timed_out` is the `wait_timeout` status (it only feeds
a debug log in the Rust code).  Returns the boolean result paired with
whether the thread actually blocked on the condition variable. -/
def wait_for_new_prices (call_prices recheck_prices : List PricePoint)
    (after : Int) (timed_out : Bool) : Bool × Bool :=
  if optLt (some after) (latest_price_date call_prices) then
    (true, false)
  else
    (optLt (some after) (latest_price_date recheck_prices), true)

/-- `PricePoints::try_update` from `pricing.rs`.  The network stage
(`Self::fetch_from_tibber(client)`, which fetches and sorts today's and
tomorrow's points) is the explicit `fetched` parameter; the file stage
(`self.to_file(prices_file)`) is the explicit `save_ok` parameter.  Returns
the series held in `self` after the call together with the `Result`. -/
def try_update (self : List PricePoint) (update_time now_time now_utc : Int)
    (fetched : Except Unit (List PricePoint)) (save_ok : Bool) :
    List PricePoint × Except Unit Bool :=
  if !(should_fetch_prices self update_time now_time now_utc) then
    (self, .ok false)
  else
    match fetched with
    | .error e => (self, .error e)
    | .ok new_prices =>
      if new_prices.isEmpty then
        (self, .ok false)
      else if !(has_more_recent_prices new_prices self) then
        (self, .ok false)
      else if save_ok then
        (new_prices, .ok true)
      else
        (new_prices, .error ())

/-- Observable effects of one iteration of the background worker loop in
`start_background_worker` (`shared_buffer.rs`), beyond the `try_update` call
itself. -/
inductive WorkerAction where
  /-- `shared_data.set_new_prices(price_list.clone())` -/
  | publish (prices : List PricePoint)
  /-- a `PricePoints::to_file` call issued by the loop body itself
  (vocabulary only: the loop body never issues one) -/
  | persist_file (prices : List PricePoint)
  /-- `thread::sleep(Duration::from_secs(60))` -/
  | sleep_recovery_60s
  /-- the jittered `thread::sleep(wait_time_with_jitter)` closing the cycle -/
  | sleep_until_next_list
deriving DecidableEq, Repr

/-- Whether a worker action is a file-persistence attempt. -/
def WorkerAction.is_persist : WorkerAction → Bool
  | .persist_file _ => true
  | _ => false

/-- The effect trace of one iteration of the background worker loop
(`shared_buffer.rs`, the `match price_list.try_update(...)` plus the closing
sleep): `Ok(false)` does nothing; `Ok(true)` publishes the local series to the
shared cache; `Err(_)` publishes the local series and sleeps 60 seconds; every
iteration ends with the jittered sleep until the next price list. -/
def worker_iteration (price_list : List PricePoint)
    (res : Except Unit Bool) : List WorkerAction :=
  (match res with
   | .ok false => []
   | .ok true => [.publish price_list]
   | .error _ => [.publish price_list, .sleep_recovery_60s]) ++
  [.sleep_until_next_list]

/-- Outcome of `TibberClient::fetch_price_info` (`tibberapi.rs`): the final
result, the number of underlying `fetch_price_info_no_retry` calls made, and
the sequence of sleep durations (milliseconds) in order. -/
structure FetchOutcome (E A : Type) where
  result : Except E A
  calls : Nat
  sleeps : List Nat
deriving Repr

/-- The retry loop of `TibberClient::fetch_price_info`.  `source k` is the
result of the `k`-th underlying `fetch_price_info_no_retry` call (1-based,
matching the Rust `attempt` counter); `attempt` is the number of calls already
made and `remaining` the number of retries still allowed, so the Rust guard
`attempt > max_retries` (tested after incrementing) is `remaining = 0`:
the loop enters with `attempt = 0`, `remaining = max_retries`, and each
failure consumes one unit of `remaining` while incrementing `attempt`.
On a non-terminal failure the thread sleeps `delay` and the delay doubles,
capped at `max_delay`. -/
def fetch_go (source : Nat → Except E A) (max_delay : Nat) :
    (attempt remaining delay : Nat) → FetchOutcome E A
  | attempt, remaining, delay =>
    match source (attempt + 1) with
    | .ok a => ⟨.ok a, attempt + 1, []⟩
    | .error e =>
      match remaining with
      | 0 => ⟨.error e, attempt + 1, []⟩
      | r + 1 =>
        let rest := fetch_go source max_delay (attempt + 1) r
          (min (delay * 2) max_delay)
        ⟨rest.result, rest.calls, delay :: rest.sleeps⟩

/-- `TibberClient::fetch_price_info` from `tibberapi.rs`: run the retry loop
from `attempt = 0` with the configured initial delay. -/
def fetch_price_info (source : Nat → Except E A)
    (max_retries : Nat) (initial_delay_ms max_delay_ms : Nat) :
    FetchOutcome E A :=
  fetch_go source max_delay_ms 0 max_retries initial_delay_ms

/-- The sleep-delay sequence produced by `r` consecutive non-terminal
failures starting from delay `dl`: each failure sleeps the current delay,
then the delay doubles, capped at `M`. -/
def delay_seq (M : Nat) : Nat → Nat → List Nat
  | 0, _ => []
  | r + 1, dl => dl :: delay_seq M r (min (dl * 2) M)

/-- A source for the C6 counterexample: the first two calls fail, every
later call succeeds. -/
def src_fail_twice : Nat → Except Unit Unit :=
  fun n => if n ≤ 2 then .error () else .ok ()

/-- A source for the C6 witness: every call fails. -/
def src_always_fail : Nat → Except Unit Unit :=
  fun _ => .error ()

/-! ## Helper lemmas -/

theorem optLt_irrefl (o : Option Int) : optLt o o = false := by
  cases o <;> simp [optLt]

theorem optLt_of_eq {o o' : Option Int} (h : o = o') : optLt o o' = false := by
  subst h; exact optLt_irrefl o

theorem optLt_some_iff {x : Int} {o : Option Int} :
    optLt (some x) o = true ↔ ∃ b, o = some b ∧ x < b := by
  cases o <;> simp [optLt]

theorem has_prices_for_date_iff (ps : List PricePoint) (date : Int) :
    has_prices_for_date ps date = true ↔
      ((∃ p ∈ ps, p.starts_at < date) ∧ (∃ p ∈ ps, date < p.starts_at)) := by
  simp [has_prices_for_date, List.any_eq_true]

theorem new_from_price_point_ne_new (p : PricePoint) :
    ActivePrice.new_from_price_point p ≠ ActivePrice.new := by
  simp [ActivePrice.new_from_price_point, ActivePrice.new]

theorem new_from_price_point_inj {p q : PricePoint}
    (h : ActivePrice.new_from_price_point p = ActivePrice.new_from_price_point q) :
    p = q := by
  cases p
  cases q
  simp [ActivePrice.new_from_price_point] at h
  simp [h.1, h.2]

theorem sorted_head_le_mem (a : PricePoint) (t : List PricePoint)
    (hs : List.Sorted (fun x y : PricePoint => x.starts_at ≤ y.starts_at) (a :: t)) :
    ∀ x ∈ a :: t, a.starts_at ≤ x.starts_at := by
  intro x hx
  rcases List.mem_cons.mp hx with rfl | hx
  · exact le_refl _
  · exact (List.pairwise_cons.mp hs).1 x hx

/-- If an adjacent pair of a sorted series brackets `now`, the scan finds
exactly the left element of that pair. -/
theorem active_scan_found (now : Int) :
    ∀ (ps : List PricePoint)
      (_ : List.Sorted (fun x y : PricePoint => x.starts_at ≤ y.starts_at) ps)
      (i : Nat) (h : i + 1 < ps.length),
      (ps.get ⟨i, Nat.lt_of_succ_lt h⟩).starts_at ≤ now →
      now < (ps.get ⟨i + 1, h⟩).starts_at →
      active_scan now ps =
        ActivePrice.new_from_price_point (ps.get ⟨i, Nat.lt_of_succ_lt h⟩)
  | [], _, i, h => by simp at h
  | [_], _, i, h => by simp at h
  | p :: q :: rest, hs, 0, h => by
    intro h1 h2
    simp only [List.get] at h1 h2 ⊢
    simp [active_scan, h1, h2]
  | p :: q :: rest, hs, j + 1, h => by
    intro h1 h2
    have hj : j + 1 < (q :: rest).length := by
      simpa using Nat.lt_of_succ_lt_succ h
    have hqj : q.starts_at ≤ ((q :: rest).get ⟨j, Nat.lt_of_succ_lt hj⟩).starts_at :=
      sorted_head_le_mem q rest (List.Sorted.of_cons hs) _ (List.get_mem _ _ _)
    have hrec := active_scan_found now (q :: rest) (List.Sorted.of_cons hs) j hj
    have hcond : ¬(p.starts_at ≤ now ∧ now < q.starts_at) := by
      rintro ⟨-, hlt⟩
      exact absurd (lt_of_le_of_lt (le_trans hqj h1) hlt) (lt_irrefl _)
    simp only [active_scan, if_neg hcond]
    exact hrec h1 h2

/-- When `now` precedes the first point, the scan finds nothing. -/
theorem active_scan_none_before (now : Int) :
    ∀ (ps : List PricePoint)
      (_ : List.Sorted (fun x y : PricePoint => x.starts_at ≤ y.starts_at) ps)
      (hne : ps ≠ []), now < (ps.head hne).starts_at →
      active_scan now ps = ActivePrice.new
  | [], _, hne => absurd rfl hne
  | [_], _, _ => fun _ => rfl
  | p :: q :: rest, hs, _ => by
    intro hlt
    simp only [List.head] at hlt
    have hpq : p.starts_at ≤ q.starts_at :=
      (List.pairwise_cons.mp hs).1 q (by simp)
    have hcond : ¬(p.starts_at ≤ now ∧ now < q.starts_at) := by
      rintro ⟨hle, -⟩
      exact absurd (lt_of_lt_of_le hlt hle) (lt_irrefl _)
    simp only [active_scan, if_neg hcond]
    exact active_scan_none_before now (q :: rest) (List.Sorted.of_cons hs)
      (by simp) (by simpa using lt_of_lt_of_le hlt hpq)

/-- When `now` is at or after the last point's start, the scan finds
nothing (the last point alone is never active). -/
theorem active_scan_none_after (now : Int) :
    ∀ (ps : List PricePoint)
      (_ : List.Sorted (fun x y : PricePoint => x.starts_at ≤ y.starts_at) ps)
      (hne : ps ≠ []), (ps.getLast hne).starts_at ≤ now →
      active_scan now ps = ActivePrice.new
  | [], _, hne => absurd rfl hne
  | [_], _, _ => fun _ => rfl
  | p :: q :: rest, hs, _ => by
    intro hle
    have hlast : (p :: q :: rest).getLast (by simp) = (q :: rest).getLast (by simp) := by
      simp [List.getLast]
    rw [hlast] at hle
    have hql : q.starts_at ≤ ((q :: rest).getLast (by simp)).starts_at :=
      sorted_head_le_mem q rest (List.Sorted.of_cons hs) _ (List.getLast_mem _)
    have hcond : ¬(p.starts_at ≤ now ∧ now < q.starts_at) := by
      rintro ⟨-, hlt⟩
      exact absurd (lt_of_le_of_lt (le_trans hql hle) hlt) (lt_irrefl _)
    simp only [active_scan, if_neg hcond]
    exact active_scan_none_after now (q :: rest) (List.Sorted.of_cons hs)
      (by simp) hle

/-- Completeness of the scan: a returned point is the left element of an
adjacent pair bracketing `now`. -/
theorem active_scan_complete (now : Int) :
    ∀ (ps : List PricePoint) (p : PricePoint),
      active_scan now ps = ActivePrice.new_from_price_point p →
      ∃ i : Nat, ∃ h : i + 1 < ps.length,
        ps.get ⟨i, Nat.lt_of_succ_lt h⟩ = p ∧
        (ps.get ⟨i, Nat.lt_of_succ_lt h⟩).starts_at ≤ now ∧
        now < (ps.get ⟨i + 1, h⟩).starts_at
  | [], p, h => absurd h.symm (new_from_price_point_ne_new p)
  | [_], p, h => absurd h.symm (new_from_price_point_ne_new p)
  | a :: q :: rest, p, h => by
    by_cases hcond : a.starts_at ≤ now ∧ now < q.starts_at
    · simp only [active_scan, if_pos hcond] at h
      exact ⟨0, by simp, new_from_price_point_inj h, hcond.1, hcond.2⟩
    · simp only [active_scan, if_neg hcond] at h
      obtain ⟨j, hj, hget, hle, hlt⟩ := active_scan_complete now (q :: rest) p h
      exact ⟨j + 1, by simpa using Nat.succ_lt_succ hj, hget, hle, hlt⟩

/-! ## Claims -/

/-- C1: for a series sorted ascending by `starts_at`, `get_active_price`
returns exactly the point `p` whose adjacent successor bounds `now`
(`p.starts_at ≤ now < next(p).starts_at`); it returns no price when the
series is empty, when `now` precedes the first point's `starts_at`, or when
`now` is at or after the last point's `starts_at`. -/
theorem get_active_price_spec (ps : List PricePoint) (now : Int)
    (hs : List.Sorted (fun x y : PricePoint => x.starts_at ≤ y.starts_at) ps) :
    (∀ p : PricePoint,
      get_active_price ps now = ActivePrice.new_from_price_point p ↔
        ∃ i : Nat, ∃ h : i + 1 < ps.length,
          ps.get ⟨i, Nat.lt_of_succ_lt h⟩ = p ∧
          (ps.get ⟨i, Nat.lt_of_succ_lt h⟩).starts_at ≤ now ∧
          now < (ps.get ⟨i + 1, h⟩).starts_at) ∧
    (ps = [] → get_active_price ps now = ActivePrice.new) ∧
    (∀ hne : ps ≠ [], now < (ps.head hne).starts_at →
      get_active_price ps now = ActivePrice.new) ∧
    (∀ hne : ps ≠ [], (ps.getLast hne).starts_at ≤ now →
      get_active_price ps now = ActivePrice.new) := by
  have hget : get_active_price ps now = active_scan now ps := by
    unfold get_active_price
    rcases ps with _ | ⟨a, l⟩
    · rfl
    · simp [active_scan]
  rw [hget]
  refine ⟨fun p => ⟨fun h => active_scan_complete now ps p h, ?_⟩,
    fun h => by subst h; rfl,
    fun hne h => active_scan_none_before now ps hs hne h,
    fun hne h => active_scan_none_after now ps hs hne h⟩
  rintro ⟨i, h, rfl, hle, hlt⟩
  exact active_scan_found now ps hs i h hle hlt

/-- Witness for C1: in a sorted three-point series the middle interval's
left endpoint is active, and instants outside the covered span give no
price. -/
theorem get_active_price_spec_witness :
    get_active_price [⟨1, 0⟩, ⟨2, 10⟩, ⟨3, 20⟩] 15 =
      ActivePrice.new_from_price_point ⟨2, 10⟩ ∧
    get_active_price [⟨1, 0⟩, ⟨2, 10⟩, ⟨3, 20⟩] (-1) = ActivePrice.new ∧
    get_active_price [⟨1, 0⟩, ⟨2, 10⟩, ⟨3, 20⟩] 20 = ActivePrice.new :=
  ⟨((get_active_price_spec [⟨1, 0⟩, ⟨2, 10⟩, ⟨3, 20⟩] 15 (by decide)).1
      ⟨2, 10⟩).mpr ⟨1, by decide, rfl, by decide, by decide⟩,
   (get_active_price_spec [⟨1, 0⟩, ⟨2, 10⟩, ⟨3, 20⟩] (-1) (by decide)).2.2.1
      (by decide) (by decide),
   (get_active_price_spec [⟨1, 0⟩, ⟨2, 10⟩, ⟨3, 20⟩] 20 (by decide)).2.2.2
      (by decide) (by decide)⟩

/-- C7: `has_more_recent_prices` is a strict order on the single scalar
recency (last point's `starts_at`, empty older than anything): it is
irreflexive, and two series with equal recency are mutually not-newer. -/
theorem has_more_recent_prices_strict :
    (∀ s : List PricePoint, has_more_recent_prices s s = false) ∧
    (∀ s o : List PricePoint,
      latest_price_date s = latest_price_date o →
        has_more_recent_prices s o = false ∧
        has_more_recent_prices o s = false) := by
  refine ⟨fun s => optLt_irrefl _, fun s o h => ⟨?_, ?_⟩⟩
  · exact optLt_of_eq h.symm
  · exact optLt_of_eq h

/-- Witness for C7 at concrete series with equal last `starts_at`. -/
theorem has_more_recent_prices_strict_witness :
    has_more_recent_prices [⟨1, 5⟩] [⟨1, 5⟩] = false ∧
    has_more_recent_prices [⟨1, 5⟩] [⟨2, 5⟩] = false ∧
    has_more_recent_prices [⟨2, 5⟩] [⟨1, 5⟩] = false :=
  ⟨has_more_recent_prices_strict.1 [⟨1, 5⟩],
   (has_more_recent_prices_strict.2 [⟨1, 5⟩] [⟨2, 5⟩] rfl).1,
   (has_more_recent_prices_strict.2 [⟨1, 5⟩] [⟨2, 5⟩] rfl).2⟩

/-- C2: `set_new_prices` returns `true`, replaces the stored series and
notifies all waiters exactly when the candidate is strictly newer (its last
`starts_at` strictly greater than the current one, an empty series older than
anything); otherwise it returns `false` and leaves the state untouched with
no notification. -/
theorem set_new_prices_spec (cur cand : List PricePoint) :
    ((set_new_prices cur cand).returned = true ↔
      ((latest_price_date cur = none ∧ ∃ b, latest_price_date cand = some b) ∨
       (∃ a b : Int, latest_price_date cur = some a ∧
         latest_price_date cand = some b ∧ a < b))) ∧
    ((set_new_prices cur cand).returned = true →
      (set_new_prices cur cand).state = cand ∧
      (set_new_prices cur cand).notified_all = true) ∧
    ((set_new_prices cur cand).returned = false →
      (set_new_prices cur cand).state = cur ∧
      (set_new_prices cur cand).notified_all = false) := by
  unfold set_new_prices has_more_recent_prices
  rcases hc : latest_price_date cur with _ | a <;>
    rcases hd : latest_price_date cand with _ | b <;>
      simp [optLt, hc, hd]
  by_cases hab : a < b <;> simp [hab]

/-- Witness for C2: a strictly newer candidate is installed; an older
candidate leaves the state unchanged. -/
theorem set_new_prices_spec_witness :
    (set_new_prices [⟨1, 0⟩] [⟨2, 10⟩]).state = [⟨2, 10⟩] ∧
    (set_new_prices [⟨2, 10⟩] [⟨1, 0⟩]).state = [⟨2, 10⟩] ∧
    (set_new_prices [⟨2, 10⟩] [⟨1, 0⟩]).notified_all = false :=
  ⟨((set_new_prices_spec [⟨1, 0⟩] [⟨2, 10⟩]).2.1 (by decide)).1,
   ((set_new_prices_spec [⟨2, 10⟩] [⟨1, 0⟩]).2.2 (by decide)).1,
   ((set_new_prices_spec [⟨2, 10⟩] [⟨1, 0⟩]).2.2 (by decide)).2⟩

/-- C5: `wait_for_new_prices` returns `true` without blocking when the cached
recency already strictly exceeds the baseline at call time; otherwise its
return value equals whether the recency observed at the post-wait recheck
strictly exceeds the baseline — independently of the timeout/wake status —
and an empty cached series never exceeds any baseline. -/
theorem wait_for_new_prices_spec (callS recheckS : List PricePoint)
    (after : Int) (t_o : Bool) :
    ((∃ b, latest_price_date callS = some b ∧ after < b) →
      wait_for_new_prices callS recheckS after t_o = (true, false)) ∧
    ((wait_for_new_prices callS recheckS after t_o).2 = true →
      ((wait_for_new_prices callS recheckS after t_o).1 = true ↔
        ∃ b, latest_price_date recheckS = some b ∧ after < b)) ∧
    ((wait_for_new_prices callS recheckS after t_o).2 = false →
      ((wait_for_new_prices callS recheckS after t_o).1 = true ↔
        ∃ b, latest_price_date callS = some b ∧ after < b)) ∧
    (∀ t' : Bool, wait_for_new_prices callS recheckS after t_o =
      wait_for_new_prices callS recheckS after t') ∧
    (recheckS = [] →
      (wait_for_new_prices callS recheckS after t_o).2 = true →
      (wait_for_new_prices callS recheckS after t_o).1 = false) := by
  unfold wait_for_new_prices
  by_cases h : optLt (some after) (latest_price_date callS) = true
  · rw [if_pos h]
    refine ⟨fun _ => rfl, ?_, ?_, fun _ => rfl, ?_⟩
    · intro hw
      exact absurd hw (by simp)
    · intro _
      exact iff_of_true rfl (optLt_some_iff.mp h)
    · intro _ hw
      exact absurd hw (by simp)
  · rw [if_neg h]
    refine ⟨?_, fun _ => optLt_some_iff, ?_, fun _ => rfl, ?_⟩
    · intro hex
      exact absurd (optLt_some_iff.mpr hex) h
    · intro hw
      exact absurd hw (by simp)
    · rintro rfl _
      rfl

/-- Witness for C5: an already-newer cache returns `(true, false)`; a cache
that stays empty through the recheck yields `false` after blocking. -/
theorem wait_for_new_prices_spec_witness :
    wait_for_new_prices [⟨1, 10⟩] [] 5 false = (true, false) ∧
    (wait_for_new_prices [] [] 5 true).1 = false :=
  ⟨(wait_for_new_prices_spec [⟨1, 10⟩] [] 5 false).1 ⟨10, rfl, by decide⟩,
   (wait_for_new_prices_spec [] [] 5 true).2.2.2.2 rfl (by decide)⟩

/-- C9 counterexample: in an iteration whose `try_update` ends in an error,
the worker publishes the local series and sleeps the 60-second recovery
interval, but issues no file-persistence attempt of its own — contradicting
the claim that it also persists the series to the price file. -/
theorem worker_iteration_no_persist_cex :
    worker_iteration [] (.error ()) =
      [.publish [], .sleep_recovery_60s, .sleep_until_next_list] ∧
    (worker_iteration [] (.error ())).any WorkerAction.is_persist = false :=
  ⟨rfl, rfl⟩

/-- C9 (amended): in every iteration whose update attempt ends in an error,
the worker still publishes the locally-held series into the shared cache and
then sleeps the fixed 60-second recovery interval before the closing sleep;
it does not attempt to persist the series to the price file. -/
theorem worker_iteration_error_spec (pl : List PricePoint) (e : Unit) :
    worker_iteration pl (.error e) =
      [.publish pl, .sleep_recovery_60s, .sleep_until_next_list] ∧
    (worker_iteration pl (.error e)).any WorkerAction.is_persist = false := by
  cases e
  exact ⟨rfl, rfl⟩

/-- C3: `should_fetch_prices` is true when today's coverage (a point strictly
before and a point strictly after the current instant) is missing; otherwise
true when tomorrow's coverage (the same at `now + 24h`) is missing and the
local time-of-day has reached the update time; otherwise false. -/
theorem should_fetch_prices_spec (ps : List PricePoint) (u nt now : Int) :
    should_fetch_prices ps u nt now = true ↔
      (¬ ((∃ p ∈ ps, p.starts_at < now) ∧ (∃ p ∈ ps, now < p.starts_at)) ∨
       (¬ ((∃ p ∈ ps, p.starts_at < now + msPerDay) ∧
           (∃ p ∈ ps, now + msPerDay < p.starts_at)) ∧ u ≤ nt)) := by
  rw [← has_prices_for_date_iff, ← has_prices_for_date_iff]
  unfold should_fetch_prices has_today_prices has_tomorrows_prices
  rcases h1 : has_prices_for_date ps now <;>
    rcases h2 : has_prices_for_date ps (now + msPerDay) <;>
      by_cases hnt : nt ≥ u <;>
        simp [h1, h2, hnt, ge_iff_le]

/-- C4: `duration_to_new_price_list` is zero when today's coverage is missing;
the time from now until the update time on the following local calendar day
when tomorrow's coverage exists; zero when tomorrow's coverage is missing and
local now is already past today's update time; otherwise the time until
today's update time — and it is never negative. -/
theorem duration_to_new_price_list_spec (ps : List PricePoint)
    (u d t now : Int) (hu0 : 0 ≤ u) (hu1 : u < msPerDay)
    (ht0 : 0 ≤ t) (ht1 : t < msPerDay) :
    (has_today_prices ps now = false →
      duration_to_new_price_list ps u d t now = 0) ∧
    (has_today_prices ps now = true → has_tomorrows_prices ps now = true →
      duration_to_new_price_list ps u d t now =
        ((d + 1) * msPerDay + u) - (d * msPerDay + t)) ∧
    (has_today_prices ps now = true → has_tomorrows_prices ps now = false →
      d * msPerDay + t > d * msPerDay + u →
      duration_to_new_price_list ps u d t now = 0) ∧
    (has_today_prices ps now = true → has_tomorrows_prices ps now = false →
      ¬(d * msPerDay + t > d * msPerDay + u) →
      duration_to_new_price_list ps u d t now =
        (d * msPerDay + u) - (d * msPerDay + t)) ∧
    0 ≤ duration_to_new_price_list ps u d t now := by
  refine ⟨?_, ?_, ?_, ?_, ?_⟩ <;> unfold duration_to_new_price_list
  · intro h1
    simp [h1]
  · intro h1 h2
    simp [h1, h2]
  · intro h1 h2 h3
    simp only [h1, h2, Bool.not_true, Bool.not_false, Bool.false_eq_true,
      if_false, if_true]
    rw [if_pos h3]
  · intro h1 h2 h3
    simp only [h1, h2, Bool.not_true, Bool.not_false, Bool.false_eq_true,
      if_false, if_true]
    rw [if_neg h3]
  · rcases h1 : has_today_prices ps now <;>
      rcases h2 : has_tomorrows_prices ps now <;>
        simp only [h1, h2, Bool.not_true, Bool.not_false, Bool.false_eq_true,
          if_false, if_true, le_refl] <;>
      simp only [msPerDay] at hu1 ht1 ⊢
    · split <;> omega
    · omega

/-- Witness for C4 at a concrete series covering only the current instant's
neighbourhood, with local time before the update time. -/
theorem duration_to_new_price_list_spec_witness :
    duration_to_new_price_list [⟨1, 50⟩, ⟨1, 150⟩] 2 0 1 100 = 2 - 1 ∧
    0 ≤ duration_to_new_price_list [⟨1, 50⟩, ⟨1, 150⟩] 2 0 1 100 :=
  ⟨((duration_to_new_price_list_spec [⟨1, 50⟩, ⟨1, 150⟩] 2 0 1 100
      (by decide) (by decide) (by decide) (by decide)).2.2.2.1
      (by decide) (by decide) (by decide)),
   (duration_to_new_price_list_spec [⟨1, 50⟩, ⟨1, 150⟩] 2 0 1 100
      (by decide) (by decide) (by decide) (by decide)).2.2.2.2⟩

/-- C8 counterexample: a series with coverage for the current instant but not
for 24 hours ahead ("covers only yesterday and today"), at a local
time-of-day (0) strictly before the update time (1): `should_fetch_prices`
returns `false` (the claim says `true`) and `duration_to_new_price_list`
returns `1` (the claim says zero). -/
theorem should_fetch_before_update_time_cex :
    has_prices_for_date [⟨1, 90⟩, ⟨1, 110⟩] 100 = true ∧
    has_prices_for_date [⟨1, 90⟩, ⟨1, 110⟩] (100 + msPerDay) = false ∧
    (0 : Int) < 1 ∧
    should_fetch_prices [⟨1, 90⟩, ⟨1, 110⟩] 1 0 100 = false ∧
    duration_to_new_price_list [⟨1, 90⟩, ⟨1, 110⟩] 1 0 0 100 = 1 := by
  refine ⟨by decide, ?_, by decide, ?_, ?_⟩ <;> decide

/-- C8 (amended): for every series with coverage for the current instant but
none for the instant 24 hours ahead, at a local time-of-day strictly before
the update time, `should_fetch_prices` returns `false` and
`duration_to_new_price_list` returns the (positive) time remaining until
today's update time. -/
theorem should_fetch_before_update_time_spec (ps : List PricePoint)
    (u d t now : Int) (h1 : has_prices_for_date ps now = true)
    (h2 : has_prices_for_date ps (now + msPerDay) = false) (ht : t < u) :
    should_fetch_prices ps u t now = false ∧
    duration_to_new_price_list ps u d t now = u - t ∧
    0 < duration_to_new_price_list ps u d t now := by
  unfold should_fetch_prices duration_to_new_price_list
    has_today_prices has_tomorrows_prices
  simp only [h1, h2, Bool.not_true, Bool.not_false, Bool.false_eq_true,
    if_false, if_true, ge_iff_le]
  rw [if_neg (by omega : ¬ u ≤ t), if_neg (by omega :
    ¬ d * msPerDay + t > d * msPerDay + u)]
  refine ⟨rfl, by ring_nf, by omega⟩

/-- Witness for the amended C8 at the counterexample input. -/
theorem should_fetch_before_update_time_spec_witness :
    should_fetch_prices [⟨1, 90⟩, ⟨1, 110⟩] 1 0 100 = false ∧
    duration_to_new_price_list [⟨1, 90⟩, ⟨1, 110⟩] 1 0 0 100 = 1 - 0 ∧
    0 < duration_to_new_price_list [⟨1, 90⟩, ⟨1, 110⟩] 1 0 0 100 :=
  should_fetch_before_update_time_spec [⟨1, 90⟩, ⟨1, 110⟩] 1 0 0 100
    (by decide) (by decide) (by decide)

/-! ## Retry loop lemmas (for C6) -/

theorem fetch_go_of_ok {source : Nat → Except E A} {a : A}
    (M attempt r dl : Nat) (h : source (attempt + 1) = .ok a) :
    fetch_go source M attempt r dl = ⟨.ok a, attempt + 1, []⟩ := by
  unfold fetch_go
  rw [h]

theorem fetch_go_of_error_zero {source : Nat → Except E A} {e : E}
    (M attempt dl : Nat) (h : source (attempt + 1) = .error e) :
    fetch_go source M attempt 0 dl = ⟨.error e, attempt + 1, []⟩ := by
  unfold fetch_go
  rw [h]

theorem fetch_go_of_error_succ {source : Nat → Except E A} {e : E}
    (M attempt r dl : Nat) (h : source (attempt + 1) = .error e) :
    fetch_go source M attempt (r + 1) dl =
      ⟨(fetch_go source M (attempt + 1) r (min (dl * 2) M)).result,
       (fetch_go source M (attempt + 1) r (min (dl * 2) M)).calls,
       dl :: (fetch_go source M (attempt + 1) r (min (dl * 2) M)).sleeps⟩ := by
  conv_lhs => rw [fetch_go]
  rw [h]

/-- First success within the remaining budget: the loop returns it at once,
having made exactly `k` calls and slept once per failed attempt. -/
theorem fetch_go_first_success (source : Nat → Except E A) (M : Nat) :
    ∀ (r attempt dl k : Nat) (a : A), attempt < k → k ≤ attempt + r + 1 →
      (∀ j, attempt < j → j < k → ∃ e, source j = .error e) →
      source k = .ok a →
      (fetch_go source M attempt r dl).result = .ok a ∧
      (fetch_go source M attempt r dl).calls = k ∧
      (fetch_go source M attempt r dl).sleeps.length = k - attempt - 1
  | 0, attempt, dl, k, a => by
    intro hlt hle _ hok
    have hk : k = attempt + 1 := by omega
    subst hk
    rw [fetch_go_of_ok M attempt 0 dl hok]
    exact ⟨rfl, rfl, by simp⟩
  | r + 1, attempt, dl, k, a => by
    intro hlt hle hfail hok
    by_cases hk : k = attempt + 1
    · subst hk
      rw [fetch_go_of_ok M attempt (r + 1) dl hok]
      exact ⟨rfl, rfl, by simp⟩
    · obtain ⟨e, he⟩ := hfail (attempt + 1) (by omega) (by omega)
      rw [fetch_go_of_error_succ M attempt r dl he]
      obtain ⟨h1, h2, h3⟩ := fetch_go_first_success source M r (attempt + 1)
        (min (dl * 2) M) k a (by omega) (by omega)
        (fun j hj1 hj2 => hfail j (by omega) hj2) hok
      exact ⟨h1, h2, by simp [h3]; omega⟩

/-- When every call in the remaining budget fails, the loop stops after the
whole budget, wraps the last failure, and its sleeps are the doubling-capped
delay sequence. -/
theorem fetch_go_all_fail (source : Nat → Except E A) (M : Nat) :
    ∀ (r attempt dl : Nat),
      (∀ j, attempt < j → j ≤ attempt + r + 1 → ∃ e, source j = .error e) →
      (fetch_go source M attempt r dl).calls = attempt + r + 1 ∧
      (fetch_go source M attempt r dl).sleeps = delay_seq M r dl ∧
      ∀ e, source (attempt + r + 1) = .error e →
        (fetch_go source M attempt r dl).result = .error e
  | 0, attempt, dl => by
    intro hfail
    obtain ⟨e, he⟩ := hfail (attempt + 1) (by omega) (by omega)
    rw [fetch_go_of_error_zero M attempt dl he]
    refine ⟨rfl, rfl, ?_⟩
    intro e' he'
    rw [show attempt + 0 + 1 = attempt + 1 by omega] at he'
    exact he.symm.trans he'
  | r + 1, attempt, dl => by
    intro hfail
    obtain ⟨e, he⟩ := hfail (attempt + 1) (by omega) (by omega)
    rw [fetch_go_of_error_succ M attempt r dl he]
    obtain ⟨h1, h2, h3⟩ := fetch_go_all_fail source M r (attempt + 1)
      (min (dl * 2) M) (fun j hj1 hj2 => hfail j (by omega) (by omega))
    refine ⟨by simp [h1]; omega, by simp [h2, delay_seq], ?_⟩
    intro e' he'
    exact h3 e' (by rw [show attempt + 1 + r + 1 = attempt + (r + 1) + 1 by omega]; exact he')

theorem delay_seq_length (M : Nat) : ∀ (r dl : Nat), (delay_seq M r dl).length = r
  | 0, _ => rfl
  | r + 1, dl => by simp [delay_seq, delay_seq_length M r]

theorem delay_seq_step (M : Nat) :
    ∀ (r dl i : Nat) (h : i + 1 < (delay_seq M r dl).length),
      (delay_seq M r dl).get ⟨i + 1, h⟩ =
        min ((delay_seq M r dl).get ⟨i, Nat.lt_of_succ_lt h⟩ * 2) M
  | 0, dl, i, h => by simp [delay_seq] at h
  | r + 1, dl, 0, h => by
    have hr : 1 ≤ r := by
      have := delay_seq_length M (r + 1) dl
      omega
    rcases r with _ | r'
    · omega
    · simp [delay_seq]
  | r + 1, dl, i + 1, h => by
    have h' : i + 1 < (delay_seq M r (min (dl * 2) M)).length := by
      simpa [delay_seq] using h
    simpa [delay_seq] using delay_seq_step M r (min (dl * 2) M) i h'


/-- C6 counterexample: with `max_retries = 1` and a source that fails twice
then succeeds, `fetch_price_info` makes only 2 underlying calls and returns a
terminal error — not the 3 calls ending in the first success that the claim
asserts for every configuration. -/
theorem fetch_price_info_budget_cex :
    src_fail_twice 1 = .error () ∧ src_fail_twice 2 = .error () ∧
    src_fail_twice 3 = .ok () ∧
    (fetch_price_info src_fail_twice 1 1 10).calls = 2 ∧
    (fetch_price_info src_fail_twice 1 1 10).result = .error () :=
  ⟨rfl, rfl, rfl, rfl, rfl⟩

/-- C6 (amended): `fetch_price_info` returns the first successful underlying
result immediately provided the success occurs within `max_retries + 1`
attempts (in particular, with `max_retries ≥ 2` a source failing twice then
succeeding yields exactly 3 calls); when every attempt fails it returns a
terminal error wrapping the last failure after exactly `max_retries + 1`
calls, having slept between failed attempts delays that start at the initial
value and double after every failure, capped at the maximum delay. -/
theorem fetch_price_info_spec (source : Nat → Except E A) (mr d0 M : Nat) :
    (∀ (k : Nat) (a : A), 1 ≤ k → k ≤ mr + 1 →
      (∀ j, 1 ≤ j → j < k → ∃ e, source j = .error e) → source k = .ok a →
      (fetch_price_info source mr d0 M).result = .ok a ∧
      (fetch_price_info source mr d0 M).calls = k ∧
      (fetch_price_info source mr d0 M).sleeps.length = k - 1) ∧
    (∀ a : A, 2 ≤ mr → (∃ e, source 1 = .error e) →
      (∃ e, source 2 = .error e) → source 3 = .ok a →
      (fetch_price_info source mr d0 M).result = .ok a ∧
      (fetch_price_info source mr d0 M).calls = 3) ∧
    ((∀ j, 1 ≤ j → j ≤ mr + 1 → ∃ e, source j = .error e) →
      (fetch_price_info source mr d0 M).calls = mr + 1 ∧
      (fetch_price_info source mr d0 M).sleeps = delay_seq M mr d0 ∧
      ∀ e, source (mr + 1) = .error e →
        (fetch_price_info source mr d0 M).result = .error e) ∧
    ((delay_seq M mr d0).length = mr ∧
     (∀ h : 0 < (delay_seq M mr d0).length,
        (delay_seq M mr d0).get ⟨0, h⟩ = d0) ∧
     (∀ (i : Nat) (h : i + 1 < (delay_seq M mr d0).length),
        (delay_seq M mr d0).get ⟨i + 1, h⟩ =
          min ((delay_seq M mr d0).get ⟨i, Nat.lt_of_succ_lt h⟩ * 2) M)) := by
  have hfirst : ∀ (k : Nat) (a : A), 1 ≤ k → k ≤ mr + 1 →
      (∀ j, 1 ≤ j → j < k → ∃ e, source j = .error e) → source k = .ok a →
      (fetch_price_info source mr d0 M).result = .ok a ∧
      (fetch_price_info source mr d0 M).calls = k ∧
      (fetch_price_info source mr d0 M).sleeps.length = k - 1 := by
    intro k a hk1 hk2 hfail hok
    obtain ⟨h1, h2, h3⟩ := fetch_go_first_success source M mr 0 d0 k a
      (by omega) (by omega) (fun j hj1 hj2 => hfail j (by omega) hj2) hok
    exact ⟨h1, h2, h3⟩
  refine ⟨hfirst, ?_, ?_, ?_, ?_, ?_⟩
  · intro a hmr h1 h2 h3
    have := hfirst 3 a (by omega) (by omega)
      (fun j hj1 hj2 => by
        rcases (show j = 1 ∨ j = 2 by omega) with rfl | rfl
        · exact h1
        · exact h2) h3
    exact ⟨this.1, this.2.1⟩
  · intro hfail
    obtain ⟨h1, h2, h3⟩ := fetch_go_all_fail source M mr 0 d0
      (fun j hj1 hj2 => hfail j (by omega) (by omega))
    refine ⟨?_, h2, ?_⟩
    · show (fetch_go source M 0 mr d0).calls = mr + 1
      rw [h1]
      omega
    · intro e he
      exact h3 e (by rw [show 0 + mr + 1 = mr + 1 by omega]; exact he)
  · exact delay_seq_length M mr d0
  · intro h
    rcases mr with _ | r
    · rw [delay_seq_length M 0 d0] at h
      omega
    · rfl
  · exact fun i h => delay_seq_step M mr d0 i h

/-- Witness for the amended C6: `max_retries = 2` with a fails-twice source
returns the success in exactly 3 calls; with an always-failing source the
loop stops after 3 calls with the terminal error and sleeps `[1, 2]`
(initial 1 ms doubled once, cap 10 ms not reached). -/
theorem fetch_price_info_spec_witness :
    (fetch_price_info src_fail_twice 2 1 10).result = .ok () ∧
    (fetch_price_info src_fail_twice 2 1 10).calls = 3 ∧
    (fetch_price_info src_always_fail 2 1 10).calls = 3 ∧
    (fetch_price_info src_always_fail 2 1 10).sleeps = delay_seq 10 2 1 ∧
    (fetch_price_info src_always_fail 2 1 10).result = .error () :=
  ⟨((fetch_price_info_spec src_fail_twice 2 1 10).2.1 () (by omega)
      ⟨(), rfl⟩ ⟨(), rfl⟩ rfl).1,
   ((fetch_price_info_spec src_fail_twice 2 1 10).2.1 () (by omega)
      ⟨(), rfl⟩ ⟨(), rfl⟩ rfl).2,
   ((fetch_price_info_spec src_always_fail 2 1 10).2.2.1
      (fun j _ _ => ⟨(), rfl⟩)).1,
   ((fetch_price_info_spec src_always_fail 2 1 10).2.2.1
      (fun j _ _ => ⟨(), rfl⟩)).2.1,
   ((fetch_price_info_spec src_always_fail 2 1 10).2.2.1
      (fun j _ _ => ⟨(), rfl⟩)).2.2 () rfl⟩

/-- C10: `try_update` is not atomic with respect to failure: when the gate
passes, the fetch succeeds with non-empty strictly newer prices, and the save
to the price file fails, it returns an error while the in-memory series has
already been replaced by the fetched prices (which differ from the old
series); only a fetch-stage failure leaves the series unchanged on error. -/
theorem try_update_spec (s : List PricePoint) (u nt now : Int)
    (new_prices : List PricePoint)
    (hgate : should_fetch_prices s u nt now = true)
    (hne : new_prices ≠ [])
    (hnewer : has_more_recent_prices new_prices s = true) :
    (try_update s u nt now (.ok new_prices) false =
      (new_prices, .error ()) ∧ new_prices ≠ s) ∧
    (∀ save_ok : Bool,
      try_update s u nt now (.error ()) save_ok = (s, .error ())) := by
  refine ⟨⟨?_, ?_⟩, ?_⟩
  · have hne' : new_prices.isEmpty = false := by
      simpa using hne
    simp [try_update, hgate, hne', hnewer]
  · intro heq
    rw [heq] at hnewer
    exact absurd hnewer (by simp [has_more_recent_prices, optLt_irrefl])
  · intro save_ok
    simp [try_update, hgate]

/-- Witness for C10: a save failure leaves the newly fetched series in
memory with an error return; a fetch failure leaves the old series. -/
theorem try_update_spec_witness :
    try_update [⟨1, 0⟩] 0 0 0 (.ok [⟨2, 10⟩]) false =
      ([⟨2, 10⟩], .error ()) ∧
    try_update [⟨1, 0⟩] 0 0 0 (.error ()) true = ([⟨1, 0⟩], .error ()) :=
  ⟨((try_update_spec [⟨1, 0⟩] 0 0 0 [⟨2, 10⟩]
      (by decide) (by decide) (by decide)).1).1,
   (try_update_spec [⟨1, 0⟩] 0 0 0 [⟨2, 10⟩]
      (by decide) (by decide) (by decide)).2 true⟩
